import Mathlib

/-!
Shallow embedding of the Cerebro command-and-file execution gateway
(`src/src-tauri/src/lib.rs`) together with theorems settling the frozen
claims about its specification.

Modelling conventions:
* Rust `Path` / `PathBuf` values are modelled by their component sequence.
  An absolute path below `/` is an `AbsPath` (its named segments in order);
  a caller-supplied path is a `List PComponent`, mirroring what
  `Path::components()` yields on Unix (the Windows `Prefix` component is
  folded into `rootDir`, which the source rejects identically).
* Machine integers are `Nat`; a Rust `u8` byte is a `Nat` assumed `< 256`.
  The `u32` shift/mask arithmetic of the codec is rendered with `/`, `%`
  and `*` on `Nat` (no overflow occurs: every `triple` is `< 2^24`).
* Fallible Rust functions returning `Result<T, String>` become
  `Except String T`, carrying the exact error strings of the source.
* Filesystem and process effects are made explicit: file state is a record
  of functions passed in and returned, and a successful exec returns a
  `SpawnCall` describing the process that would be spawned, so "fails
  before spawning" is visible in the return type.
-/

instance {ε α : Type} [DecidableEq ε] [DecidableEq α] : DecidableEq (Except ε α) := fun a b =>
  match a, b with
  | .ok x, .ok y =>
      if h : x = y then .isTrue (by rw [h]) else .isFalse (by intro hc; cases hc; exact h rfl)
  | .error x, .error y =>
      if h : x = y then .isTrue (by rw [h]) else .isFalse (by intro hc; cases hc; exact h rfl)
  | .ok _, .error _ => .isFalse (by intro hc; cases hc)
  | .error _, .ok _ => .isFalse (by intro hc; cases hc)

namespace Cerebro

/-! ## Path containment engine (`sanitize_relative_path`, `build_path`,
`relative_from_root` in the source) -/

/-- An absolute path, as the ordered list of its named segments below `/`. -/
abbrev AbsPath := List String

/-- One component of a caller-supplied path, as produced by Rust's
`Path::components()` on Unix. -/
inductive PComponent
  | rootDir
  | curDir
  | parentDir
  | normal (s : String)
deriving DecidableEq, Repr

/-- The component walk of `sanitize_relative_path` (the `for component in
path.components()` loop): current-directory components are skipped, named
components are pushed, a parent-directory component errors when the
accumulator equals `root` exactly and otherwise pops, root/drive components
error as invalid. -/
def walkComponents (root : AbsPath) (resolved : AbsPath) : List PComponent → Except String AbsPath
  | [] => .ok resolved
  | component :: rest =>
      match component with
      | .curDir => walkComponents root resolved rest
      | .normal part => walkComponents root (resolved ++ [part]) rest
      | .parentDir =>
          if resolved = root then .error "Ruta fuera de la órbita segura."
          else walkComponents root resolved.dropLast rest
      | .rootDir => .error "Ruta inválida"

/-- The relative branch of `sanitize_relative_path`: the component walk
followed by the final `resolved.starts_with(root)` defence-in-depth check. -/
def sanitizeWalk (root : AbsPath) (path : List PComponent) : Except String AbsPath :=
  match walkComponents root root path with
  | .error e => .error e
  | .ok resolved =>
      if root.isPrefixOf resolved then .ok resolved
      else .error "Ruta fuera de la órbita segura."

/-- `sanitize_relative_path`: an absolute input must strip `root` as a
literal component prefix (else out of orbit) and the remainder is walked;
a relative input is walked directly. -/
def sanitize_relative_path (root : AbsPath) (path : List PComponent) : Except String AbsPath :=
  if path.head? = some PComponent.rootDir then
    let rootComps := PComponent.rootDir :: root.map PComponent.normal
    if rootComps.isPrefixOf path then
      sanitizeWalk root (path.drop rootComps.length)
    else .error "Ruta fuera de la órbita segura."
  else sanitizeWalk root path

/-- `build_path`: an absent input resolves to the root itself. -/
def build_path (root : AbsPath) (input : Option (List PComponent)) : Except String AbsPath :=
  match input with
  | some value => sanitize_relative_path root value
  | none => .ok root

/-- `str::replace('\\', "/")`: since the pattern and the replacement are
single characters this is a character-wise map. -/
def replaceBackslashes (s : String) : String :=
  String.mk (s.data.map (fun c => if c = '\x5c' then '/' else c))

/-- `relative_from_root`: strip the root prefix; an empty remainder maps to
`"."`, otherwise the segments are joined with `/` (and any backslash is
normalized, as `to_string_lossy().replace('\\', "/")` does). -/
def relative_from_root (root target : AbsPath) : Except String String :=
  if root.isPrefixOf target then
    let relative := target.drop root.length
    if relative = [] then .ok "."
    else .ok (replaceBackslashes (String.intercalate "/" relative))
  else .error "Ruta fuera de la órbita segura."

/-! ### Claims C1 and C2 -/

theorem walkComponents_normals (root : AbsPath) (resolved : AbsPath) (segs : List String) :
    walkComponents root resolved (segs.map PComponent.normal) = .ok (resolved ++ segs) := by
  induction segs generalizing resolved with
  | nil => simp [walkComponents]
  | cons s rest ih => simp [walkComponents, ih]

/-- C1: for every root and every relative path whose components are only
normal (named) segments, `sanitize_relative_path` succeeds and returns
`root` with those segments appended in order — in particular a descendant
of `root` (the result starts with `root`). -/
theorem sanitize_normal_segments_ok (root : AbsPath) (segs : List String) :
    sanitize_relative_path root (segs.map PComponent.normal) = .ok (root ++ segs) ∧
      root.isPrefixOf (root ++ segs) = true := by
  have hpre : root.isPrefixOf (root ++ segs) = true := by
    simp [List.isPrefixOf_iff_prefix]
  refine ⟨?_, hpre⟩
  have hhead : (segs.map PComponent.normal).head? ≠ some PComponent.rootDir := by
    cases segs <;> simp
  rw [sanitize_relative_path, if_neg hhead, sanitizeWalk, walkComponents_normals]
  simp [hpre]

theorem walkComponents_append (root : AbsPath) (acc : AbsPath) (xs ys : List PComponent) :
    walkComponents root acc (xs ++ ys) =
      match walkComponents root acc xs with
      | .ok acc2 => walkComponents root acc2 ys
      | .error e => .error e := by
  induction xs generalizing acc with
  | nil => simp [walkComponents]
  | cons c rest ih =>
      cases c with
      | rootDir => simp [walkComponents]
      | curDir => simp [walkComponents, ih]
      | normal s => simp [walkComponents, ih]
      | parentDir =>
          by_cases hacc : acc = root
          · simp [walkComponents, hacc]
          · simp [walkComponents, hacc, ih]

/-- C2: whenever the left-to-right component walk reaches the accumulator
`root` exactly and the next component is a parent-directory reference,
`sanitize_relative_path` fails with the out-of-orbit error — it never
silently clamps the path at the root and continues. -/
theorem sanitize_parent_at_root_out_of_orbit (root : AbsPath)
    (front back : List PComponent)
    (h : walkComponents root root front = .ok root) :
    sanitize_relative_path root (front ++ PComponent.parentDir :: back) =
      .error "Ruta fuera de la órbita segura." := by
  have hhead : (front ++ PComponent.parentDir :: back).head? ≠ some PComponent.rootDir := by
    cases front with
    | nil => simp
    | cons c rest =>
        cases c with
        | rootDir => simp [walkComponents] at h
        | curDir => simp
        | parentDir => simp
        | normal s => simp
  rw [sanitize_relative_path, if_neg hhead, sanitizeWalk, walkComponents_append, h]
  simp [walkComponents]

/-- Witness for C2 at a concrete input: the walk of `["a", ".."]` returns
to the root, so appending `../escape` afterwards is rejected out of orbit. -/
theorem sanitize_parent_at_root_out_of_orbit_witness :
    walkComponents ["home", "user"] ["home", "user"]
        [PComponent.normal "a", PComponent.parentDir] = .ok ["home", "user"] ∧
      sanitize_relative_path ["home", "user"]
          ([PComponent.normal "a", PComponent.parentDir] ++
            PComponent.parentDir :: [PComponent.normal "escape"]) =
        .error "Ruta fuera de la órbita segura." := by
  refine ⟨by decide, ?_⟩
  exact sanitize_parent_at_root_out_of_orbit ["home", "user"]
    [PComponent.normal "a", PComponent.parentDir] [PComponent.normal "escape"] (by decide)

/-! ## Binary-text codec (`encode_base64`, `decode_base64`,
`decode_base64_char` in the source) -/

/-- The 64-symbol alphabet `BASE64_TABLE`. -/
def BASE64_TABLE : List Char :=
  "ABCDEFGHIJKLMNOPQRSTUVWXYZabcdefghijklmnopqrstuvwxyz0123456789+/".data

/-- `BASE64_TABLE[idx]`; every index produced by the encoder is `< 64`. -/
def base64At (idx : Nat) : Char := BASE64_TABLE.getD idx '?'

/-- One pass of the encoder's `for chunk in data.chunks(3)` body: `len` is the
chunk length (1..3), the missing source bytes are 0, and the third / fourth
symbols degrade to `'='` for short chunks.  The `u32` shifts and `0x3F` masks
of the source are written as division and `% 64` on `Nat`. -/
def encodeGroup (b0 b1 b2 len : Nat) : List Char :=
  let triple := b0 * 65536 + b1 * 256 + b2
  [base64At (triple / 262144 % 64),
   base64At (triple / 4096 % 64),
   if len > 1 then base64At (triple / 64 % 64) else '=',
   if len > 2 then base64At (triple % 64) else '=']

/-- The encoder's chunk loop over `data.chunks(3)`. -/
def encodeAux : List Nat → List Char
  | [] => []
  | [b0] => encodeGroup b0 0 0 1
  | [b0, b1] => encodeGroup b0 b1 0 2
  | b0 :: b1 :: b2 :: rest => encodeGroup b0 b1 b2 3 ++ encodeAux rest

/-- `encode_base64`: empty input short-circuits to the empty string. -/
def encode_base64 (data : List Nat) : String :=
  if data = [] then "" else String.mk (encodeAux data)

/-- `decode_base64_char`, on the code point of the (ASCII) character. -/
def decode_base64_char (c : Char) : Option Nat :=
  let byte := c.toNat
  if 65 ≤ byte ∧ byte ≤ 90 then some (byte - 65)
  else if 97 ≤ byte ∧ byte ≤ 122 then some (byte - 97 + 26)
  else if 48 ≤ byte ∧ byte ≤ 57 then some (byte - 48 + 52)
  else if byte = 43 then some 62
  else if byte = 47 then some 63
  else none

/-- The per-character step of the decoder's inner loop: `'='` contributes the
value 0 (and one unit of padding), everything else must be in the alphabet. -/
def groupVal (c : Char) : Except String Nat :=
  if c = '=' then .ok 0
  else
    match decode_base64_char c with
    | some v => .ok v
    | none => .error "Cadena base64 inválida."

/-- How much one character adds to the group's `padding` counter. -/
def padCount (c : Char) : Nat := if c = '=' then 1 else 0

/-- The body of the decoder's `for chunk in cleaned.as_bytes().chunks(4)`
loop: the four 6-bit values are recombined and 1–3 bytes are emitted
depending on the group's total `padding` count. -/
def decodeGroup (c0 c1 c2 c3 : Char) : Except String (List Nat) :=
  match groupVal c0, groupVal c1, groupVal c2, groupVal c3 with
  | .ok v0, .ok v1, .ok v2, .ok v3 =>
      let padding := padCount c0 + padCount c1 + padCount c2 + padCount c3
      let triple := v0 * 262144 + v1 * 4096 + v2 * 64 + v3
      let out0 := [triple / 65536 % 256]
      let out1 := if padding < 2 then out0 ++ [triple / 256 % 256] else out0
      let out2 := if padding < 1 then out1 ++ [triple % 256] else out1
      .ok out2
  | .error e, _, _, _ => .error e
  | _, .error e, _, _ => .error e
  | _, _, .error e, _ => .error e
  | _, _, _, .error e => .error e

/-- The decoder's group loop; the length guard in `decode_base64` ensures
the final catch-all case is never reached. -/
def decodeChunks : List Char → Except String (List Nat)
  | [] => .ok []
  | c0 :: c1 :: c2 :: c3 :: rest =>
      match decodeGroup c0 c1 c2 c3, decodeChunks rest with
      | .ok grp, .ok more => .ok (grp ++ more)
      | .error e, _ => .error e
      | _, .error e => .error e
  | _ => .error "Cadena base64 inválida."

/-- `decode_base64`: strip whitespace, require a multiple-of-4 length, then
decode group by group. -/
def decode_base64 (input : String) : Except String (List Nat) :=
  let cleaned := input.data.filter (fun ch => !ch.isWhitespace)
  if cleaned.length % 4 ≠ 0 then .error "Cadena base64 inválida."
  else decodeChunks cleaned

/-! ### Claims C3 and C10 -/

theorem decode_table_char : ∀ i, i < 64 → decode_base64_char (base64At i) = some i := by
  decide

theorem base64At_ne_pad : ∀ i, i < 64 → base64At i ≠ '=' := by decide

theorem base64At_not_ws : ∀ i, i < 64 → (base64At i).isWhitespace = false := by decide

theorem groupVal_table (i : Nat) (h : i < 64) : groupVal (base64At i) = .ok i := by
  rw [groupVal, if_neg (base64At_ne_pad i h), decode_table_char i h]

theorem padCount_table (i : Nat) (h : i < 64) : padCount (base64At i) = 0 := by
  simp [padCount, base64At_ne_pad i h]

theorem groupVal_pad : groupVal '=' = .ok 0 := rfl

theorem padCount_pad : padCount '=' = 1 := rfl

theorem decodeGroup_encodeGroup3 (b0 b1 b2 : Nat)
    (h0 : b0 < 256) (h1 : b1 < 256) (h2 : b2 < 256) :
    decodeGroup (base64At ((b0 * 65536 + b1 * 256 + b2) / 262144 % 64))
        (base64At ((b0 * 65536 + b1 * 256 + b2) / 4096 % 64))
        (base64At ((b0 * 65536 + b1 * 256 + b2) / 64 % 64))
        (base64At ((b0 * 65536 + b1 * 256 + b2) % 64)) = .ok [b0, b1, b2] := by
  have h64 : (0 : Nat) < 64 := by omega
  simp only [decodeGroup, groupVal_table _ (Nat.mod_lt _ h64),
    padCount_table _ (Nat.mod_lt _ h64)]
  norm_num
  refine ⟨?_, ?_, ?_⟩ <;> omega

theorem decodeGroup_encodeGroup2 (b0 b1 : Nat) (h0 : b0 < 256) (h1 : b1 < 256) :
    decodeGroup (base64At ((b0 * 65536 + b1 * 256) / 262144 % 64))
        (base64At ((b0 * 65536 + b1 * 256) / 4096 % 64))
        (base64At ((b0 * 65536 + b1 * 256) / 64 % 64))
        '=' = .ok [b0, b1] := by
  have h64 : (0 : Nat) < 64 := by omega
  simp only [decodeGroup, groupVal_table _ (Nat.mod_lt _ h64), groupVal_pad,
    padCount_table _ (Nat.mod_lt _ h64), padCount_pad]
  norm_num
  constructor <;> omega

theorem decodeGroup_encodeGroup1 (b0 : Nat) (h0 : b0 < 256) :
    decodeGroup (base64At (b0 * 65536 / 262144 % 64))
        (base64At (b0 * 65536 / 4096 % 64)) '=' '=' = .ok [b0] := by
  have h64 : (0 : Nat) < 64 := by omega
  simp only [decodeGroup, groupVal_table _ (Nat.mod_lt _ h64), groupVal_pad,
    padCount_table _ (Nat.mod_lt _ h64), padCount_pad]
  norm_num
  omega

theorem decodeChunks_encodeAux (x : List Nat) (h : ∀ b ∈ x, b < 256) :
    decodeChunks (encodeAux x) = .ok x := by
  match x with
  | [] => rfl
  | [b0] =>
      have h0 : b0 < 256 := h b0 (by simp)
      simp only [encodeAux, encodeGroup]
      norm_num
      rw [decodeChunks, decodeGroup_encodeGroup1 b0 h0]
      simp [decodeChunks]
  | [b0, b1] =>
      have h0 : b0 < 256 := h b0 (by simp)
      have h1 : b1 < 256 := h b1 (by simp)
      simp only [encodeAux, encodeGroup]
      norm_num
      rw [decodeChunks, decodeGroup_encodeGroup2 b0 b1 h0 h1]
      simp [decodeChunks]
  | b0 :: b1 :: b2 :: rest =>
      have h0 : b0 < 256 := h b0 (by simp)
      have h1 : b1 < 256 := h b1 (by simp)
      have h2 : b2 < 256 := h b2 (by simp)
      have ih := decodeChunks_encodeAux rest (fun b hb => h b (by simp [hb]))
      simp only [encodeAux, encodeGroup]
      norm_num
      rw [decodeChunks, decodeGroup_encodeGroup3 b0 b1 b2 h0 h1 h2, ih]
      rfl

theorem encodeGroup_not_ws (b0 b1 b2 len : Nat) :
    ∀ c ∈ encodeGroup b0 b1 b2 len, c.isWhitespace = false := by
  have h64 : (0 : Nat) < 64 := by omega
  intro c hc
  simp only [encodeGroup, List.mem_cons, List.not_mem_nil, or_false] at hc
  rcases hc with rfl | rfl | rfl | rfl
  · exact base64At_not_ws _ (Nat.mod_lt _ h64)
  · exact base64At_not_ws _ (Nat.mod_lt _ h64)
  · split
    · exact base64At_not_ws _ (Nat.mod_lt _ h64)
    · rfl
  · split
    · exact base64At_not_ws _ (Nat.mod_lt _ h64)
    · rfl

theorem encodeAux_not_ws (x : List Nat) : ∀ c ∈ encodeAux x, c.isWhitespace = false := by
  match x with
  | [] => intro c hc; simp [encodeAux] at hc
  | [b0] => exact fun c hc => encodeGroup_not_ws b0 0 0 1 c hc
  | [b0, b1] => exact fun c hc => encodeGroup_not_ws b0 b1 0 2 c hc
  | b0 :: b1 :: b2 :: rest =>
      intro c hc
      rw [encodeAux, List.mem_append] at hc
      rcases hc with hc | hc
      · exact encodeGroup_not_ws b0 b1 b2 3 c hc
      · exact encodeAux_not_ws rest c hc

theorem encodeAux_length_mod (x : List Nat) : (encodeAux x).length % 4 = 0 := by
  match x with
  | [] => rfl
  | [b0] =>
      have hg : (encodeGroup b0 0 0 1).length = 4 := rfl
      rw [encodeAux, hg]
  | [b0, b1] =>
      have hg : (encodeGroup b0 b1 0 2).length = 4 := rfl
      rw [encodeAux, hg]
  | b0 :: b1 :: b2 :: rest =>
      have ih := encodeAux_length_mod rest
      have hg : (encodeGroup b0 b1 b2 3).length = 4 := rfl
      rw [encodeAux, List.length_append, hg]
      omega

/-- C3: the codec round-trips — decoding the encoding of any byte sequence
succeeds and returns exactly the input; in particular the empty sequence
encodes to the empty string, which decodes back to the empty sequence. -/
theorem decode_encode_base64_roundtrip (x : List Nat) (h : ∀ b ∈ x, b < 256) :
    decode_base64 (encode_base64 x) = .ok x ∧
      encode_base64 [] = "" ∧ decode_base64 "" = .ok [] := by
  refine ⟨?_, rfl, by decide⟩
  by_cases hx : x = []
  · subst hx; decide
  · rw [encode_base64, if_neg hx, decode_base64]
    have hfilter :
        (String.mk (encodeAux x)).data.filter (fun ch => !ch.isWhitespace) = encodeAux x := by
      refine List.filter_eq_self.mpr ?_
      intro c hc
      simp [encodeAux_not_ws x c hc]
    simp only [hfilter, encodeAux_length_mod x, ne_eq, not_true_eq_false, if_false,
      not_false_eq_true, if_neg (by omega : ¬ (0 : Nat) ≠ 0)]
    exact decodeChunks_encodeAux x h

/-- Witness for C3 at the concrete bytes `[0, 255, 7, 130]`. -/
theorem decode_encode_base64_roundtrip_witness :
    decode_base64 (encode_base64 [0, 255, 7, 130]) = .ok [0, 255, 7, 130] :=
  (decode_encode_base64_roundtrip [0, 255, 7, 130] (by decide)).1

theorem groupVal_isOk (c : Char) (h : c = '=' ∨ (decode_base64_char c).isSome) :
    ∃ v, groupVal c = .ok v := by
  by_cases hc : c = '='
  · exact ⟨0, by simp [groupVal, hc]⟩
  · rcases h with rfl | h
    · exact absurd rfl hc
    · rw [Option.isSome_iff_exists] at h
      obtain ⟨v, hv⟩ := h
      exact ⟨v, by simp [groupVal, hc, hv]⟩

theorem not_ws_of_groupable (c : Char) (h : c = '=' ∨ (decode_base64_char c).isSome) :
    c.isWhitespace = false := by
  rcases h with rfl | h
  · decide
  · by_contra hws
    rw [Bool.not_eq_false] at hws
    simp only [Char.isWhitespace, Bool.or_eq_true, decide_eq_true_eq] at hws
    rcases hws with ((rfl | rfl) | rfl) | rfl <;> simp [decode_base64_char] at h

/-- C10: `decode_base64` treats `'='` anywhere inside a 4-character group as
padding: a group of alphabet characters and `'='` always decodes, to 3 bytes
with no `'='`, 2 bytes with exactly one, and 1 byte with two or more,
wherever the `'='` characters sit. -/
theorem decode_base64_padding_anywhere (c0 c1 c2 c3 : Char)
    (h0 : c0 = '=' ∨ (decode_base64_char c0).isSome)
    (h1 : c1 = '=' ∨ (decode_base64_char c1).isSome)
    (h2 : c2 = '=' ∨ (decode_base64_char c2).isSome)
    (h3 : c3 = '=' ∨ (decode_base64_char c3).isSome) :
    ∃ bytes, decode_base64 (String.mk [c0, c1, c2, c3]) = .ok bytes ∧
      bytes.length =
        (if padCount c0 + padCount c1 + padCount c2 + padCount c3 = 0 then 3
         else if padCount c0 + padCount c1 + padCount c2 + padCount c3 = 1 then 2
         else 1) := by
  obtain ⟨v0, g0⟩ := groupVal_isOk c0 h0
  obtain ⟨v1, g1⟩ := groupVal_isOk c1 h1
  obtain ⟨v2, g2⟩ := groupVal_isOk c2 h2
  obtain ⟨v3, g3⟩ := groupVal_isOk c3 h3
  have hdata : (String.mk [c0, c1, c2, c3]).data = [c0, c1, c2, c3] := rfl
  have hfilter : ([c0, c1, c2, c3]).filter (fun ch => !ch.isWhitespace) = [c0, c1, c2, c3] := by
    simp [not_ws_of_groupable c0 h0, not_ws_of_groupable c1 h1,
      not_ws_of_groupable c2 h2, not_ws_of_groupable c3 h3]
  rw [decode_base64]
  simp only [hdata, hfilter, List.length_cons, List.length_nil]
  norm_num
  simp only [decodeChunks, decodeGroup, g0, g1, g2, g3, List.append_nil]
  refine ⟨_, rfl, ?_⟩
  split_ifs <;>
    simp only [List.length_append, List.length_cons, List.length_nil] <;> omega

/-- Witness for C10: the out-of-order group `"=A=="` (three `'='`, one in
front) decodes successfully to a single byte. -/
theorem decode_base64_padding_anywhere_witness :
    ∃ bytes, decode_base64 "=A==" = .ok bytes ∧ bytes.length = 1 := by
  simpa using decode_base64_padding_anywhere '=' 'A' '=' '='
    (by decide) (by decide) (by decide) (by decide)

/-! ## Process execution gateway (`mcp_git_exec`, `mcp_shell_exec`,
`is_shell_command_allowed`, `has_disallowed_tokens` in the source).

The filesystem is abstracted: `safeRoot` stands for the outcome of
`safe_root()` (home resolution plus lazy creation) and `dirExists` for
`Path::exists` on the resolved working directory.  A successful call
returns the `SpawnCall` that `spawn_command` would receive; every policy
rejection returns `Except.error` before any `SpawnCall` exists, so
"fails before spawning" is the type of the result.  `spawn_command` itself
waits for the child with `Command::output()` and carries no timeout, which
is why `SpawnCall` has no timeout field. -/

/-- The process `spawn_command` would launch: program, arguments, working
directory and environment overrides.  No timeout is part of a spawn. -/
structure SpawnCall where
  program : String
  args : List String
  workingDir : AbsPath
  envPairs : List (String × String)
deriving DecidableEq, Repr

/-- `BLOCKED_GIT_SUBCOMMANDS`. -/
def BLOCKED_GIT_SUBCOMMANDS : List String := ["push", "pull", "fetch", "remote", "clone"]

/-- `ALLOWED_SHELL_COMMANDS`. -/
def ALLOWED_SHELL_COMMANDS : List String :=
  ["ls", "cat", "tail", "pwd", "npm", "pnpm", "yarn", "npx", "node", "deno",
   "cargo", "go", "python", "pip", "pip3", "just", "make", "rg"]

/-- ASCII lowering of one character, as `u8::to_ascii_lowercase` does. -/
def asciiLower (c : Char) : Char :=
  if 'A' ≤ c ∧ c ≤ 'Z' then Char.ofNat (c.toNat + 32) else c

/-- Rust `str::to_lowercase`, modelled on the ASCII range.  (The Unicode
mappings of non-ASCII characters are not modelled; every comparison in the
source is against an ASCII-only allow/block list.) -/
def toLowercase (s : String) : String := String.mk (s.data.map asciiLower)

/-- Rust `str::eq_ignore_ascii_case`. -/
def eqIgnoreAsciiCase (a b : String) : Bool := toLowercase a == toLowercase b

/-- The source's block-list test: the first argument is Unicode-lowercased
and each blocked word is compared to it ASCII-case-insensitively. -/
def git_subcommand_blocked (arg0 : String) : Bool :=
  BLOCKED_GIT_SUBCOMMANDS.any (fun blocked => eqIgnoreAsciiCase blocked (toLowercase arg0))

/-- `is_shell_command_allowed`. -/
def is_shell_command_allowed (command : String) : Bool :=
  ALLOWED_SHELL_COMMANDS.any (fun allowed => eqIgnoreAsciiCase allowed command)

/-- Rust `str::contains(char)`: some character of the string equals `c`. -/
def containsChar (s : String) (c : Char) : Bool := s.data.contains c

/-- `has_disallowed_tokens`: any argument containing a chaining
metacharacter. -/
def has_disallowed_tokens (values : List String) : Bool :=
  values.any (fun value =>
    containsChar value '&' || containsChar value '|' || containsChar value ';')

/-- `mcp_git_exec` up to the spawn: program must literally be git, the root
must resolve, a subcommand must be present and pass the block list, then the
working directory is resolved and must exist. -/
def mcp_git_exec (safeRoot : Except String AbsPath) (dirExists : AbsPath → Bool)
    (command : String) (args : Option (List String)) (cwd : Option (List PComponent))
    (envv : Option (List (String × String))) ( _timeoutMs : Option Nat) :
    Except String SpawnCall :=
  if command ≠ "git" ∧ command ≠ "git.exe" then
    .error "Solo se permite ejecutar el comando git desde este servidor."
  else
    match safeRoot with
    | .error e => .error e
    | .ok root =>
        let final_args := args.getD []
        if final_args.isEmpty then .error "Debes especificar un subcomando de git."
        else if git_subcommand_blocked (final_args.headD "") then
          .error "Operaciones remotas de git están deshabilitadas en modo offline."
        else
          match (match cwd with
                 | some dir => build_path root (some dir)
                 | none => .ok root) with
          | .error e => .error e
          | .ok working_dir =>
              if !dirExists working_dir then
                .error "El directorio indicado para git no existe."
              else .ok ⟨command, final_args, working_dir, envv.getD []⟩

/-- `mcp_shell_exec` up to the spawn: allow-list check, metacharacter check,
root resolution, working-directory resolution and existence check. -/
def mcp_shell_exec (safeRoot : Except String AbsPath) (dirExists : AbsPath → Bool)
    (command : String) (args : Option (List String)) (cwd : Option (List PComponent))
    (envv : Option (List (String × String))) ( _timeoutMs : Option Nat) :
    Except String SpawnCall :=
  if !is_shell_command_allowed command then
    .error "Comando no permitido por la política de seguridad."
  else
    let final_args := args.getD []
    if has_disallowed_tokens final_args then
      .error "El comando contiene operadores no permitidos."
    else
      match safeRoot with
      | .error e => .error e
      | .ok root =>
          match (match cwd with
                 | some dir => build_path root (some dir)
                 | none => .ok root) with
          | .error e => .error e
          | .ok working_dir =>
              if !dirExists working_dir then
                .error "El directorio indicado no existe."
              else .ok ⟨command, final_args, working_dir, envv.getD []⟩

/-! ### Claims C4, C5 and C7 -/

/-- C4: with a resolvable root and a non-empty argument list for the git
executable, a first argument that is case-insensitively one of the blocked
remote subcommands makes `mcp_git_exec` fail with the remote-operations-
disabled error before any process is spawned; any other first argument
passes the block-list check, and spawns whenever the working directory
resolves and exists — there is no further subcommand allow-listing. -/
theorem git_exec_blocklist (safeRoot : Except String AbsPath) (root : AbsPath)
    (dirExists : AbsPath → Bool) (command : String) (args : Option (List String))
    (cwd : Option (List PComponent)) (envv : Option (List (String × String)))
    (t : Option Nat)
    (hcmd : command = "git" ∨ command = "git.exe")
    (hroot : safeRoot = .ok root)
    (hargs : (args.getD []).isEmpty = false) :
    (git_subcommand_blocked ((args.getD []).headD "") = true →
      mcp_git_exec safeRoot dirExists command args cwd envv t =
        .error "Operaciones remotas de git están deshabilitadas en modo offline.") ∧
    (git_subcommand_blocked ((args.getD []).headD "") = false →
      ∀ wd, (match cwd with
             | some dir => build_path root (some dir)
             | none => .ok root) = .ok wd →
        dirExists wd = true →
        mcp_git_exec safeRoot dirExists command args cwd envv t =
          .ok ⟨command, args.getD [], wd, envv.getD []⟩) := by
  have hgit : ¬ (command ≠ "git" ∧ command ≠ "git.exe") := by
    rcases hcmd with rfl | rfl <;> simp
  subst hroot
  constructor
  · intro hblocked
    unfold mcp_git_exec
    rw [if_neg hgit]
    simp only [hargs, Bool.false_eq_true, if_false, hblocked, if_true]
  · intro hfree wd hwd hex
    unfold mcp_git_exec
    rw [if_neg hgit]
    simp only [hargs, Bool.false_eq_true, if_false, hfree, hwd, hex,
      Bool.not_true, Bool.true_eq_false]

/-- Witness for C4: `git PUSH` is rejected as a remote operation while
`git status` produces a spawn in the root working directory. -/
theorem git_exec_blocklist_witness :
    mcp_git_exec (.ok ["r"]) (fun _ => true) "git" (some ["PUSH"]) none none none =
      .error "Operaciones remotas de git están deshabilitadas en modo offline." ∧
    mcp_git_exec (.ok ["r"]) (fun _ => true) "git" (some ["status"]) none none none =
      .ok ⟨"git", ["status"], ["r"], []⟩ :=
  ⟨(git_exec_blocklist (.ok ["r"]) ["r"] (fun _ => true) "git" (some ["PUSH"]) none none none
      (Or.inl rfl) rfl (by decide)).1 (by decide),
   (git_exec_blocklist (.ok ["r"]) ["r"] (fun _ => true) "git" (some ["status"]) none none none
      (Or.inl rfl) rfl (by decide)).2 (by decide) ["r"] rfl rfl⟩

/-- C5: `mcp_shell_exec` validates before spawning — a command outside the
case-insensitive allow-list fails with the command-not-allowed error, and an
allowed command whose arguments contain a chaining metacharacter fails with
the disallowed-token error; both rejections happen before any `SpawnCall`
is produced. -/
theorem shell_exec_validation (safeRoot : Except String AbsPath)
    (dirExists : AbsPath → Bool) (command : String) (args : Option (List String))
    (cwd : Option (List PComponent)) (envv : Option (List (String × String)))
    (t : Option Nat) :
    (is_shell_command_allowed command = false →
      mcp_shell_exec safeRoot dirExists command args cwd envv t =
        .error "Comando no permitido por la política de seguridad.") ∧
    (is_shell_command_allowed command = true →
      has_disallowed_tokens (args.getD []) = true →
      mcp_shell_exec safeRoot dirExists command args cwd envv t =
        .error "El comando contiene operadores no permitidos.") := by
  constructor
  · intro hdenied
    rw [mcp_shell_exec]
    simp only [hdenied, Bool.not_false, if_true]
  · intro hok htok
    rw [mcp_shell_exec]
    simp only [hok, Bool.not_true, Bool.false_eq_true, if_false, htok, if_true]

/-- Witness for C5: `curl` is not allow-listed, and `ls ["&&", "rm"]`
carries a chaining metacharacter. -/
theorem shell_exec_validation_witness :
    mcp_shell_exec (.ok ["r"]) (fun _ => true) "curl" none none none none =
      .error "Comando no permitido por la política de seguridad." ∧
    mcp_shell_exec (.ok ["r"]) (fun _ => true) "ls" (some ["&&", "rm"]) none none none =
      .error "El comando contiene operadores no permitidos." :=
  ⟨(shell_exec_validation (.ok ["r"]) (fun _ => true) "curl" none none none none).1
      (by decide),
   (shell_exec_validation (.ok ["r"]) (fun _ => true) "ls" (some ["&&", "rm"]) none none
      none).2 (by decide) (by decide)⟩

/-- C7: the caller-supplied timeout parameter never influences execution —
two calls to `mcp_shell_exec` or `mcp_git_exec` that differ only in the
timeout value (present or absent) return identical results.  Both functions
bind the parameter and never consult it, mirroring `_timeout_ms` in the
source; a successful result is a `SpawnCall`, which carries no timeout, and
`spawn_command` waits for the child to run to completion. -/
theorem exec_timeout_ignored (safeRoot : Except String AbsPath)
    (dirExists : AbsPath → Bool) (command : String) (args : Option (List String))
    (cwd : Option (List PComponent)) (envv : Option (List (String × String)))
    (t1 t2 : Option Nat) :
    mcp_shell_exec safeRoot dirExists command args cwd envv t1 =
        mcp_shell_exec safeRoot dirExists command args cwd envv t2 ∧
      mcp_git_exec safeRoot dirExists command args cwd envv t1 =
        mcp_git_exec safeRoot dirExists command args cwd envv t2 :=
  ⟨rfl, rfl⟩

/-! ## File access service (`mcp_files_write` in the source).

Filesystem state is explicit: `files` maps an absolute path to the byte
content of a regular file there (if any) and `dirs` says whether a
directory exists at a path.  `Path::exists` is truth of either. -/

/-- Explicit filesystem state. -/
structure FS where
  files : AbsPath → Option (List Nat)
  dirs : AbsPath → Bool

/-- `Path::exists`: a file or a directory is present. -/
def pathExists (fs : FS) (p : AbsPath) : Bool := (fs.files p).isSome || fs.dirs p

/-- `fs::create_dir_all`: the directory and every ancestor now exist. -/
def mkdirAll (fs : FS) (p : AbsPath) : FS :=
  { fs with dirs := fun q => if q.isPrefixOf p then true else fs.dirs q }

/-- `fs::write`: replace (or create) the file at `p` with `data`. -/
def writeFileFS (fs : FS) (p : AbsPath) (data : List Nat) : FS :=
  { fs with files := fun q => if q = p then some data else fs.files q }

/-- `Path::parent`: `None` only at the filesystem root. -/
def parentPath : AbsPath → Option AbsPath
  | [] => none
  | s :: rest => some ((s :: rest).dropLast)

/-- The `if let Some(parent) = target.parent()` block of `mcp_files_write`:
create the missing parent directories before anything else happens. -/
def parentStep (fs : FS) (target : AbsPath) : FS :=
  match parentPath target with
  | some parent => if !pathExists fs parent then mkdirAll fs parent else fs
  | none => fs

/-- The UTF-8 bytes of a string, as `str::as_bytes` sees them. -/
def utf8Bytes (s : String) : List Nat :=
  s.toUTF8.data.toList.map (fun b => b.toNat)

/-- `WriteResponse`. -/
structure WriteResponse where
  path : String
  bytes : Nat
  created : Bool
deriving DecidableEq, Repr

/-- `mcp_files_write` over the explicit filesystem: resolve the target,
create missing parent directories, enforce `overwrite`, then decode per
encoding and write.  Returns the new filesystem state together with the
call's result. -/
def mcp_files_write (fs : FS) (root : AbsPath) (path : List PComponent)
    (content : String) (encoding : Option String) (overwrite : Option Bool) :
    FS × Except String WriteResponse :=
  match build_path root (some path) with
  | .error e => (fs, .error e)
  | .ok target =>
      let fs1 := parentStep fs target
      let existed := pathExists fs1 target
      if existed && !(overwrite.getD true) then
        (fs1, .error "El archivo ya existe y overwrite=false.")
      else
        let encoding_pref := encoding.getD "utf8"
        if eqIgnoreAsciiCase encoding_pref "base64" then
          match decode_base64 content with
          | .error e => (fs1, .error e)
          | .ok payload =>
              match relative_from_root root target with
              | .error e => (writeFileFS fs1 target payload, .error e)
              | .ok rel =>
                  (writeFileFS fs1 target payload, .ok ⟨rel, payload.length, !existed⟩)
        else
          match relative_from_root root target with
          | .error e => (writeFileFS fs1 target (utf8Bytes content), .error e)
          | .ok rel =>
              (writeFileFS fs1 target (utf8Bytes content),
                .ok ⟨rel, (utf8Bytes content).length, !existed⟩)

/-! ### Claims C6 and C9 -/

theorem parentStep_files (fs : FS) (target : AbsPath) :
    (parentStep fs target).files = fs.files := by
  rcases hp : parentPath target with _ | parent
  · rw [parentStep, hp]
  · rw [parentStep, hp]
    by_cases hpe : pathExists fs parent = true
    · simp [hpe]
    · simp only [Bool.not_eq_true] at hpe
      simp [hpe, mkdirAll]

theorem parentStep_eq (fs : FS) (s : String) (rest : List String) :
    parentStep fs (s :: rest) =
      if !pathExists fs ((s :: rest).dropLast) then mkdirAll fs ((s :: rest).dropLast)
      else fs := by
  rw [parentStep, parentPath]

theorem parentStep_pathExists (fs : FS) (target : AbsPath) :
    pathExists (parentStep fs target) target = pathExists fs target := by
  cases target with
  | nil => rfl
  | cons s rest =>
      rw [parentStep_eq]
      have hnp : (s :: rest).isPrefixOf ((s :: rest).dropLast) = false := by
        by_contra hcon
        rw [Bool.not_eq_false, List.isPrefixOf_iff_prefix] at hcon
        have hle := hcon.length_le
        rw [List.length_dropLast] at hle
        have hl : (s :: rest).length = rest.length + 1 := rfl
        omega
      cases hpe : pathExists fs ((s :: rest).dropLast) with
      | false =>
          simp only [Bool.not_false, if_true, pathExists, mkdirAll, hnp,
            Bool.false_eq_true, if_false]
      | true => simp only [Bool.not_true, Bool.false_eq_true, if_false]

/-- C6: writing to an existing target with `overwrite = false` fails and
leaves every file untouched; with `overwrite = true` or omitted the write
succeeds (default utf8 encoding) and reports `created` exactly when the
target did not exist before the call. -/
theorem files_write_overwrite_semantics (fs : FS) (root : AbsPath)
    (path : List PComponent) (target : AbsPath) (content : String)
    (overwrite : Option Bool) (rel : String)
    (htarget : build_path root (some path) = .ok target)
    (hrel : relative_from_root root target = .ok rel) :
    ((fs.files target).isSome → overwrite = some false →
      (mcp_files_write fs root path content none overwrite).2 =
          .error "El archivo ya existe y overwrite=false." ∧
        (mcp_files_write fs root path content none overwrite).1.files = fs.files) ∧
    (overwrite ≠ some false →
      (mcp_files_write fs root path content none overwrite).2 =
          .ok ⟨rel, (utf8Bytes content).length, !pathExists fs target⟩ ∧
        (mcp_files_write fs root path content none overwrite).1.files target =
          some (utf8Bytes content)) := by
  constructor
  · intro hfile how
    subst how
    have hex : pathExists (parentStep fs target) target = true := by
      rw [parentStep_pathExists, pathExists, hfile]
      rfl
    simp only [mcp_files_write, htarget, hex, Option.getD_some, Bool.not_false,
      Bool.and_true, if_true]
    exact ⟨by trivial, parentStep_files fs target⟩
  · intro how
    have hgd : overwrite.getD true = true := by
      match overwrite with
      | none => rfl
      | some true => rfl
      | some false => exact absurd rfl how
    have henc : eqIgnoreAsciiCase ((none : Option String).getD "utf8") "base64" = false := by
      decide
    simp only [mcp_files_write, htarget, parentStep_pathExists, hgd, Bool.not_true,
      Bool.and_false, Bool.false_eq_true, if_false, henc, hrel]
    exact ⟨by trivial, by rw [writeFileFS]; simp⟩

/-- Concrete filesystem for the C6 witness: one file `r/a.txt` under the
root directory `r`. -/
def fsExample : FS :=
  { files := fun p => if p = ["r", "a.txt"] then some [104, 105] else none,
    dirs := fun p => p == ["r"] }

/-- Witness for C6: overwriting `r/a.txt` with `overwrite = false` fails and
leaves the content in place; the default overwrite succeeds with two bytes
written and `created = false`. -/
theorem files_write_overwrite_semantics_witness :
    ((mcp_files_write fsExample ["r"] [PComponent.normal "a.txt"] "hi" none (some false)).2 =
        .error "El archivo ya existe y overwrite=false." ∧
      (mcp_files_write fsExample ["r"] [PComponent.normal "a.txt"] "hi" none
          (some false)).1.files = fsExample.files) ∧
    (mcp_files_write fsExample ["r"] [PComponent.normal "a.txt"] "hi" none none).2 =
      .ok ⟨"a.txt", 2, false⟩ := by
  constructor
  · exact (files_write_overwrite_semantics fsExample ["r"] [PComponent.normal "a.txt"]
      ["r", "a.txt"] "hi" (some false) "a.txt" (by decide) (by decide)).1 (by decide) rfl
  · have h := ((files_write_overwrite_semantics fsExample ["r"] [PComponent.normal "a.txt"]
      ["r", "a.txt"] "hi" none "a.txt" (by decide) (by decide)).2 (by simp)).1
    rw [h]
    decide

/-- C9: a base64 write whose content fails to decode still creates the
missing parent directories first — the call fails with the decoding error,
no file content changes, yet the parent directory (and every ancestor) now
exists. -/
theorem files_write_base64_failure_creates_dirs (fs : FS) (root : AbsPath)
    (path : List PComponent) (target parent : AbsPath) (content : String)
    (overwrite : Option Bool) (e : String)
    (htarget : build_path root (some path) = .ok target)
    (hparent : parentPath target = some parent)
    (hnoparent : pathExists fs parent = false)
    (hnotarget : pathExists fs target = false)
    (hdec : decode_base64 content = .error e) :
    (mcp_files_write fs root path content (some "base64") overwrite).2 = .error e ∧
    (∀ q : AbsPath, q.isPrefixOf parent = true →
      (mcp_files_write fs root path content (some "base64") overwrite).1.dirs q = true) ∧
    (mcp_files_write fs root path content (some "base64") overwrite).1.files = fs.files := by
  have hstep : parentStep fs target = mkdirAll fs parent := by
    rw [parentStep, hparent]
    simp [hnoparent]
  have hex : pathExists (parentStep fs target) target = false := by
    rw [parentStep_pathExists, hnotarget]
  rw [hstep] at hex
  have henc : eqIgnoreAsciiCase ((some "base64").getD "utf8") "base64" = true := by decide
  simp only [mcp_files_write, htarget, hstep, hex, Bool.false_and, Bool.false_eq_true,
    if_false, henc, if_true, hdec]
  refine ⟨by trivial, ?_, by trivial⟩
  intro q hq
  rw [mkdirAll]
  simp only [hq, if_true]

/-- Empty filesystem for the C9 witness. -/
def fsEmpty : FS := { files := fun _ => none, dirs := fun _ => false }

/-- Witness for C9: writing `d/f.bin` with invalid base64 content `"!"`
fails with the decode error yet creates the parent directory `r/d`. -/
theorem files_write_base64_failure_creates_dirs_witness :
    (mcp_files_write fsEmpty ["r"] [PComponent.normal "d", PComponent.normal "f.bin"]
        "!" (some "base64") none).2 = .error "Cadena base64 inválida." ∧
    (mcp_files_write fsEmpty ["r"] [PComponent.normal "d", PComponent.normal "f.bin"]
        "!" (some "base64") none).1.dirs ["r", "d"] = true := by
  have h := files_write_base64_failure_creates_dirs fsEmpty ["r"]
    [PComponent.normal "d", PComponent.normal "f.bin"] ["r", "d", "f.bin"] ["r", "d"]
    "!" none "Cadena base64 inválida." (by decide) rfl rfl rfl (by decide)
  exact ⟨h.1, h.2.1 ["r", "d"] (by decide)⟩

/-! ## Metrics log tail (`mcp_metrics_tail` in the source).

The metrics file is abstracted as its line list (`BufRead::lines`, which
strips terminators); `parseEntry` stands for
`serde_json::from_str::<MetricsEntry>` (an external library), returning
`none` for a line that fails to parse.  The `eprintln!` diagnostic has no
observable effect on the result and is not modelled. -/

/-- `line.trim().is_empty()`: true exactly when every character of the line
is whitespace. -/
def trimIsEmpty (line : String) : Bool := line.data.all (fun c => c.isWhitespace)

/-- `MetricsEntry`. -/
structure MetricsEntry where
  timestamp : Nat
  mode : String
  provider : String
  latencyMs : Option Nat
  tokensIn : Option Nat
  tokensOut : Option Nat
  success : Bool
deriving DecidableEq, Repr

/-- `mcp_metrics_tail`: keep the last `limit` (default 20) lines of the file
— counting blank lines — then walk them in order, skipping blank lines and
lines that fail to parse. -/
def mcp_metrics_tail (parseEntry : String → Option MetricsEntry)
    (fileExists : Bool) (fileLines : List String) (limit : Option Nat) :
    List MetricsEntry :=
  if !fileExists then []
  else
    let keep := limit.getD 20
    let lines :=
      if fileLines.length > keep then fileLines.drop (fileLines.length - keep)
      else fileLines
    lines.foldl
      (fun entries line =>
        if trimIsEmpty line then entries
        else
          match parseEntry line with
          | some entry => entries ++ [entry]
          | none => entries) []

/-- The tail behaviour exactly as the specification sentence words it: keep
at most the last `limit` **non-empty** lines, then parse each kept line,
skipping lines that fail to parse, oldest first. -/
def spec_metrics_tail (parseEntry : String → Option MetricsEntry)
    (fileLines : List String) (limit : Option Nat) : List MetricsEntry :=
  let keep := limit.getD 20
  let nonEmpty := fileLines.filter (fun line => !trimIsEmpty line)
  let kept :=
    if nonEmpty.length > keep then nonEmpty.drop (nonEmpty.length - keep)
    else nonEmpty
  kept.filterMap parseEntry

/-! ### Claim C8 -/

/-- A parse function for the counterexample: `"a"` and `"b"` are the only
well-formed lines. -/
def parseTwo : String → Option MetricsEntry := fun line =>
  if line = "a" then some ⟨1, "chat", "p", none, none, none, true⟩
  else if line = "b" then some ⟨2, "chat", "p", none, none, none, true⟩
  else none

/-- Counterexample to C8 as stated: with lines `["a", "", "b"]` and
`limit = 2` the code keeps the last two **raw** lines `["", "b"]` and
returns one entry, while keeping the last two non-empty lines (as the claim
says) would return the entries of `"a"` and `"b"`. -/
theorem metrics_tail_spec_counterexample :
    mcp_metrics_tail parseTwo true ["a", "", "b"] (some 2) ≠
      spec_metrics_tail parseTwo ["a", "", "b"] (some 2) := by
  decide

theorem metrics_tail_foldl (parseEntry : String → Option MetricsEntry)
    (lines : List String) (acc : List MetricsEntry) :
    lines.foldl
        (fun entries line =>
          if trimIsEmpty line then entries
          else
            match parseEntry line with
            | some entry => entries ++ [entry]
            | none => entries) acc =
      acc ++ (lines.filter (fun line => !trimIsEmpty line)).filterMap parseEntry := by
  induction lines generalizing acc with
  | nil => simp
  | cons line rest ih =>
      by_cases hblank : trimIsEmpty line
      · simp [hblank, ih]
      · rcases hp : parseEntry line with _ | entry
        · simp [hblank, hp, ih]
        · simp [hblank, hp, ih]

/-- C8 as amended: `mcp_metrics_tail` keeps at most the last `limit`
(default 20) lines of the file — blank lines count toward the limit — then
drops blank lines and lines that fail to parse, returning the remaining
entries in chronological oldest-kept-first order. -/
theorem metrics_tail_amended (parseEntry : String → Option MetricsEntry)
    (fileLines : List String) (limit : Option Nat) :
    mcp_metrics_tail parseEntry true fileLines limit =
      ((fileLines.drop (fileLines.length - limit.getD 20)).filter
          (fun line => !trimIsEmpty line)).filterMap parseEntry := by
  rw [mcp_metrics_tail]
  simp only [Bool.not_true, Bool.false_eq_true, if_false]
  by_cases hlen : fileLines.length > limit.getD 20
  · simp only [hlen, if_true, metrics_tail_foldl, List.nil_append]
  · have hdrop : fileLines.length - limit.getD 20 = 0 := by omega
    simp only [hlen, if_false, metrics_tail_foldl, List.nil_append, hdrop, List.drop_zero]

end Cerebro
